import Mathlib

/-!
The WeChat web-payment client of gopay (client/wechatweb.go): a shallow embedding of
`WechatWebClient` (GenSign, CheckSign, Pay, QueryOrder, md5sum) and theorems about the signing
and verification contract.

Conventions of the embedding
* A Go `string` or `[]byte` is a finite sequence of bytes: `Str = List (Fin 256)`.
* A Go `map[string]string` is the list of its entries, with pairwise distinct keys
  (`Map.WF`); the order of the list is the order in which a `range` loop happens to visit the
  entries. Go leaves that order unspecified, so results about signing are stated for every
  order (permutations of the entries).
* A Go `error` is `Option GoError`, `none` being `nil`.
* The standard library is embedded by what it computes: `crypto/md5` by RFC 1321,
  `encoding/hex` by its digit table, `sort.Strings` by a sort for the byte-wise order of Go
  strings, `strings.Join` and `fmt.Sprintf` by concatenation. `strings.ToUpper`,
  `strings.ToLower` and `bytes.ToUpper` are the byte loop on ASCII input; on input with a byte
  above 0x7F they go through the Unicode case tables, which are a parameter (`CaseTables`).
* The collaborators of `Pay` and `QueryOrder` (random strings, local address, clock, HTTPS
  client, XML decoder) are a parameter (`World`).
-/

namespace Gopay

/-! ## Strings -/

/-- One byte of a Go string. -/
abbrev Byte := Fin 256

/-- A Go string: a sequence of bytes. -/
abbrev Str := List Byte

/-- The bytes (UTF-8) of a string literal of the source. -/
def str (s : String) : Str := s.toUTF8.data.toList.map (fun b => b.val)

/-- Go's `a < b` on strings: byte-wise lexicographic, a proper initial segment first. -/
def Str.lt : Str → Str → Bool
  | [], [] => false
  | [], _ :: _ => true
  | _ :: _, [] => false
  | a :: as, b :: bs => if a < b then true else if b < a then false else Str.lt as bs

/-- The order `sort.Strings` sorts by: `a` may stand before `b` when not `b < a`. -/
def Str.le (a b : Str) : Prop := Str.lt b a = false

instance Str.decLe : DecidableRel Str.le := fun a b => by
  unfold Str.le; infer_instance

/-- Function `sort.Strings(x)`: the strings of `x` in ascending byte-wise order. -/
def sortStrings (x : List Str) : List Str := List.insertionSort Str.le x

/-- Function `strings.Join(elems, sep)`. -/
def Join : List Str → Str → Str
  | [], _ => []
  | e :: es, sep => e ++ (es.map (fun s => sep ++ s)).flatten

/-- Call `fmt.Sprintf("%s=%s", k, v)`. -/
def sprintfKV (k v : Str) : Str := k ++ str "=" ++ v

/-- Call `fmt.Sprintf("%d", n)` for an integer: its decimal rendering. -/
def sprintfInt (n : Int) : Str := str (toString n)

/-! ## Upper and lower case -/

/-- The byte loop of `ToUpper` on an ASCII byte: `c -= 'a' - 'A'` for `'a' ≤ c ≤ 'z'`. -/
def asciiUpper (c : Byte) : Byte := if 97 ≤ c ∧ c ≤ 122 then c - 32 else c

/-- The byte loop of `ToLower` on an ASCII byte: `c += 'a' - 'A'` for `'A' ≤ c ≤ 'Z'`. -/
def asciiLower (c : Byte) : Byte := if 65 ≤ c ∧ c ≤ 90 then c + 32 else c

/-- Every byte is below `utf8.RuneSelf` (0x80). -/
def isASCII (s : Str) : Bool := s.all (fun c => decide (c < 128))

/-- The Unicode path of the case functions, `Map(unicode.ToUpper, s)` and
`Map(unicode.ToLower, s)`; the library only takes it for a string that is not ASCII. -/
structure CaseTables where
  mapUpper : Str → Str
  mapLower : Str → Str

/-- Function `strings.ToUpper(s)` (and `bytes.ToUpper`). -/
def ToUpper (uc : CaseTables) (s : Str) : Str :=
  if isASCII s then
    if s.any (fun c => decide (97 ≤ c ∧ c ≤ 122)) then s.map asciiUpper else s
  else uc.mapUpper s

/-- Function `strings.ToLower(s)`. -/
def ToLower (uc : CaseTables) (s : Str) : Str :=
  if isASCII s then
    if s.any (fun c => decide (65 ≤ c ∧ c ≤ 90)) then s.map asciiLower else s
  else uc.mapLower s

/-! ## MD5 (RFC 1321) and hexadecimal -/

namespace MD5

/-- Per-round left-rotation amounts. -/
def sTable : List Nat :=
  [7,12,17,22,7,12,17,22,7,12,17,22,7,12,17,22,
   5,9,14,20,5,9,14,20,5,9,14,20,5,9,14,20,
   4,11,16,23,4,11,16,23,4,11,16,23,4,11,16,23,
   6,10,15,21,6,10,15,21,6,10,15,21,6,10,15,21]

/-- Per-round additive constants, `floor(2^32 * |sin(i+1)|)`. -/
def kTable : List Nat :=
  [0xd76aa478,0xe8c7b756,0x242070db,0xc1bdceee,0xf57c0faf,0x4787c62a,0xa8304613,0xfd469501,
   0x698098d8,0x8b44f7af,0xffff5bb1,0x895cd7be,0x6b901122,0xfd987193,0xa679438e,0x49b40821,
   0xf61e2562,0xc040b340,0x265e5a51,0xe9b6c7aa,0xd62f105d,0x02441453,0xd8a1e681,0xe7d3fbc8,
   0x21e1cde6,0xc33707d6,0xf4d50d87,0x455a14ed,0xa9e3e905,0xfcefa3f8,0x676f02d9,0x8d2a4c8a,
   0xfffa3942,0x8771f681,0x6d9d6122,0xfde5380c,0xa4beea44,0x4bdecfa9,0xf6bb4b60,0xbebfbc70,
   0x289b7ec6,0xeaa127fa,0xd4ef3085,0x04881d05,0xd9d4d039,0xe6db99e5,0x1fa27cf8,0xc4ac5665,
   0xf4292244,0x432aff97,0xab9423a7,0xfc93a039,0x655b59c3,0x8f0ccc92,0xffeff47d,0x85845dd1,
   0x6fa87e4f,0xfe2ce6e0,0xa3014314,0x4e0811a1,0xf7537e82,0xbd3af235,0x2ad7d2bb,0xeb86d391]

/-- Words are 32 bits: arithmetic is modulo `2^32`. -/
def W : Nat := 4294967296

/-- Rotate a 32-bit word left by `s` bits. -/
def rotl (x s : Nat) : Nat := ((x <<< s) ||| (x >>> (32 - s))) % W

/-- Bitwise complement of a 32-bit word. -/
def not32 (x : Nat) : Nat := W - 1 - x

/-- The little-endian 32-bit word at the head of a byte sequence. -/
def le32 : Str → Nat
  | b0 :: b1 :: b2 :: b3 :: _ => b0.val + 256 * b1.val + 65536 * b2.val + 16777216 * b3.val
  | _ => 0

/-- The first `n` little-endian words of a byte sequence. -/
def words : Nat → Str → List Nat
  | 0, _ => []
  | n + 1, bs => le32 bs :: words n (bs.drop 4)

/-- The four chaining words A, B, C, D. -/
abbrev State := Nat × Nat × Nat × Nat

/-- Operation `i` (0..63) of the compression function on message words `m`. -/
def round (m : List Nat) (st : State) (i : Nat) : State :=
  let (a, b, c, d) := st
  let (f, g) :=
    if i < 16 then ((b &&& c) ||| (not32 b &&& d), i)
    else if i < 32 then ((d &&& b) ||| (not32 d &&& c), (5 * i + 1) % 16)
    else if i < 48 then (b ^^^ c ^^^ d, (3 * i + 5) % 16)
    else (c ^^^ (b ||| not32 d), (7 * i) % 16)
  let f2 := (f + a + kTable.getD i 0 + m.getD g 0) % W
  (d, (b + rotl f2 (sTable.getD i 0)) % W, b, c)

/-- The compression function on one 64-byte block. -/
def block (st : State) (chunk : Str) : State :=
  let m := words 16 chunk
  let (a, b, c, d) := (List.range 64).foldl (round m) st
  ((st.1 + a) % W, (st.2.1 + b) % W, (st.2.2.1 + c) % W, (st.2.2.2 + d) % W)

/-- The `n` low bytes of `x`, least significant first. -/
def leBytes (n : Nat) (x : Nat) : Str :=
  (List.range n).map (fun i => Fin.ofNat (x >>> (8 * i)))

/-- Padding: a 0x80 byte, zeros up to 56 modulo 64, the bit length on 8 bytes. -/
def pad (msg : Str) : Str :=
  let l := msg.length
  msg ++ [0x80] ++ List.replicate ((119 - l % 64) % 64) 0 ++ leBytes 8 ((8 * l) % 2 ^ 64)

/-- Run the compression function over `n` consecutive blocks. -/
def blocks : Nat → State → Str → State
  | 0, st, _ => st
  | n + 1, st, bs => blocks n (block st (bs.take 64)) (bs.drop 64)

/-- The 16-byte digest of a message: `h.Write(msg); h.Sum(nil)` on a fresh `md5.New()`. -/
def sum (msg : Str) : Str :=
  let p := pad msg
  let (a, b, c, d) := blocks (p.length / 64) (0x67452301, 0xefcdab89, 0x98badcfe, 0x10325476) p
  leBytes 4 a ++ leBytes 4 b ++ leBytes 4 c ++ leBytes 4 d

end MD5

/-- The digit table of `encoding/hex` and of the `%x` verb: `"0123456789abcdef"`. -/
def hexDigit (n : Nat) : Byte := if n < 10 then Fin.ofNat (48 + n) else Fin.ofNat (87 + n)

/-- Function `hex.Encode(dst, src)`, also `fmt.Sprintf("%x", src)`: two lower-case digits per byte. -/
def hexEncode : Str → Str
  | [] => []
  | b :: bs => hexDigit (b.val / 16) :: hexDigit (b.val % 16) :: hexEncode bs

/-- The result the spec names: the upper-case hexadecimal rendering of a digest. -/
def upperHex (digest : Str) : Str := (hexEncode digest).map asciiUpper

/-- Function `md5sum(txt)`: the MD5 of `txt`, hex-encoded, passed through `bytes.ToUpper`. -/
def md5sum (uc : CaseTables) (txt : Str) : Str :=
  let sign := hexEncode (MD5.sum txt)
  ToUpper uc sign

/-! ## Maps, errors, the client -/

/-- A Go `map[string]string`, as the list of its entries in iteration order. -/
abbrev Map := List (Str × Str)

/-- Keys of a map are pairwise distinct. -/
def Map.WF (m : Map) : Prop := (m.map Prod.fst).Nodup

/-- The keys of a map. -/
def mapKeys (m : Map) : List Str := m.map Prod.fst

/-- Statement `delete(m, k)`. -/
def mapDelete (m : Map) (k : Str) : Map := m.filter (fun e => decide (e.1 ≠ k))

/-- Statement `m[k] = v`: overwrite the entry of `k`, or add one. -/
def mapSet (m : Map) (k v : Str) : Map :=
  if m.any (fun e => decide (e.1 = k)) then m.map (fun e => if e.1 = k then (k, v) else e)
  else m ++ [(k, v)]

/-- Expression `v, ok := m[k]`. -/
def mapLookup (m : Map) (k : Str) : Option Str := (m.find? (fun e => decide (e.1 = k))).map Prod.snd

/-- A non-nil Go `error`, by the text of its `Error()`. -/
structure GoError where
  msg : Str
deriving DecidableEq

/-- Struct `WechatWebClient`. -/
structure WechatWebClient where
  AppID : Str
  MchID : Str
  CallbackURL : Str
  Key : Str
  PayURL : Str
  QueryURL : Str

/-- The loop of `GenSign` over the map: one `k=v` string per entry with a non-empty value. -/
def signDataOf (m : Map) : List Str :=
  m.foldl (fun signData e => if e.2 ≠ [] then signData ++ [sprintfKV e.1 e.2] else signData) []

/-- The string `GenSign` digests (`signStr`), for the map as the caller passes it. -/
def signStrOf (wechat : WechatWebClient) (m : Map) : Str :=
  let m := mapDelete m (str "sign")
  let m := mapDelete m (str "key")
  let signData := signDataOf m
  let signData := sortStrings signData
  let signStr := Join signData (str "&")
  signStr ++ str "&key=" ++ wechat.Key

/-- Method `GenSign(m)`. A Go map is a reference, so the two `delete` statements act on
the map of the caller: the result is that map after the call, the signature and the error. -/
def GenSign (uc : CaseTables) (wechat : WechatWebClient) (m : Map) : Map × Str × Option GoError :=
  let m := mapDelete m (str "sign")
  let m := mapDelete m (str "key")
  let signData := signDataOf m
  let signData := sortStrings signData
  let signStr := Join signData (str "&")
  let signStr := signStr ++ str "&key=" ++ wechat.Key
  (m, md5sum uc signStr, none)

/-- Method `CheckSign(data, sign)`. The `Write` of a hash never returns an error, so the
first `return err` is not taken. -/
def CheckSign (uc : CaseTables) (wechat : WechatWebClient) (data sign : Str) : Option GoError :=
  let signData := data ++ str "&Key=" ++ wechat.Key
  let signOut := hexEncode (MD5.sum signData)
  if ToUpper uc sign = ToUpper uc signOut then none
  else some ⟨str "签名交易错误"⟩

/-! ## Pay and QueryOrder -/

/-- Modelled from the spec: the type `common.Charge` is declared outside this file; these are
the fields `Pay` reads (description, trade number, amount in minor units, payer). -/
structure Charge where
  Describe : Str
  TradeNum : Str
  MoneyFee : Int
  OpenID : Str

/-- Modelled from the spec: the decoded reply `common.WeChatReResult` is declared outside this
file; these are the fields `Pay` reads (the two status codes, the message, the error
description, the prepay token). -/
structure WeChatReResult where
  ReturnCode : Str
  ReturnMsg : Str
  ResultCode : Str
  ErrCodeDes : Str
  PrepayID : Str

/-- What the collaborators of one call answer: the random strings, the local address, the
clock, the HTTPS client, the XML decoder, and the order in which the encoding loop visits the
request map. `R` is the type the reply is decoded into. -/
structure World (R : Type) where
  RandomStr1 : Str
  LocalIP : Str
  rangeOrder : Map → Map
  PostData : Str → Str → Str → Str × Option GoError
  Unmarshal : Str → R × Option GoError
  Now : Int
  RandomStr2 : Str

/-- One pass of the encoding loop: `fmt.Sprintf("<%s><![CDATA[%s]]></%s>", k, v, k)`. -/
def xmlField (k v : Str) : Str :=
  str "<" ++ k ++ str "><![CDATA[" ++ v ++ str "]]></" ++ k ++ str ">"

/-- The request document: the fields of the map, in the order `order`, inside `<xml>`. -/
def xmlEncode (order : Map → Map) (m : Map) : Str :=
  let buf := (order m).foldl (fun buf e => buf ++ xmlField e.1 e.2) []
  str "<xml>" ++ buf ++ str "</xml>"

/-- The fields `Pay` fills in before signing. -/
def payFields {R : Type} (w : World R) (wechat : WechatWebClient) (charge : Charge) : Map :=
  let m : Map := []
  let m := mapSet m (str "appid") wechat.AppID
  let m := mapSet m (str "mch_id") wechat.MchID
  let m := mapSet m (str "nonce_str") w.RandomStr1
  let m := mapSet m (str "body") charge.Describe
  let m := mapSet m (str "out_trade_no") charge.TradeNum
  let m := mapSet m (str "total_fee") (sprintfInt charge.MoneyFee)
  let m := mapSet m (str "spbill_create_ip") w.LocalIP
  let m := mapSet m (str "notify_url") wechat.CallbackURL
  let m := mapSet m (str "trade_type") (str "JSAPI")
  mapSet m (str "openid") charge.OpenID

/-- The request map `Pay` encodes: the fields, signed. `none` when `GenSign` fails. -/
def payRequest {R : Type} (uc : CaseTables) (w : World R) (wechat : WechatWebClient)
    (charge : Charge) : Option Map :=
  match GenSign uc wechat (payFields w wechat charge) with
  | (_, _, some _) => none
  | (m, sign, none) => some (mapSet m (str "sign") sign)

/-- The fields `Pay` fills in for the caller after a successful reply, before signing. -/
def payReplyFields (w : World WeChatReResult) (wechat : WechatWebClient)
    (xmlRe : WeChatReResult) : Map :=
  let c : Map := []
  let c := mapSet c (str "appId") wechat.AppID
  let c := mapSet c (str "timeStamp") (sprintfInt w.Now)
  let c := mapSet c (str "nonceStr") w.RandomStr2
  let c := mapSet c (str "package") (str "prepay_id=" ++ xmlRe.PrepayID)
  mapSet c (str "signType") (str "MD5")

/-- Method `Pay(charge)`: the returned map and error. -/
def Pay (uc : CaseTables) (w : World WeChatReResult) (wechat : WechatWebClient)
    (charge : Charge) : Map × Option GoError :=
  let m := payFields w wechat charge
  let c : Map := []
  match GenSign uc wechat m with
  | (_, _, some err) => (c, some err)
  | (m, sign, none) =>
    let m := mapSet m (str "sign") sign
    let xmlStr := xmlEncode w.rangeOrder m
    match w.PostData wechat.PayURL (str "text/xml:charset=UTF-8") xmlStr with
    | (_, some err) => (c, some err)
    | (re, none) =>
      match w.Unmarshal re with
      | (_, some err) => (c, some err)
      | (xmlRe, none) =>
        if xmlRe.ReturnCode ≠ str "SUCCESS" then (c, some ⟨xmlRe.ReturnMsg⟩)
        else if xmlRe.ResultCode ≠ str "SUCCESS" then (c, some ⟨xmlRe.ErrCodeDes⟩)
        else
          let c := payReplyFields w wechat xmlRe
          match GenSign uc wechat c with
          | (c, _, some err) => (c, some err)
          | (c, sign2, none) => (mapSet c (str "paySign") sign2, none)

/-- The fields `QueryOrder` fills in before signing. -/
def queryFields {R : Type} (w : World R) (wechat : WechatWebClient) (tradeNum : Str) : Map :=
  let m : Map := []
  let m := mapSet m (str "appid") wechat.AppID
  let m := mapSet m (str "mch_id") wechat.MchID
  let m := mapSet m (str "out_trade_no") tradeNum
  mapSet m (str "nonce_str") w.RandomStr1

/-- The request map `QueryOrder` encodes: the fields, signed. -/
def queryRequest {R : Type} (uc : CaseTables) (w : World R) (wechat : WechatWebClient)
    (tradeNum : Str) : Option Map :=
  match GenSign uc wechat (queryFields w wechat tradeNum) with
  | (_, _, some _) => none
  | (m, sign, none) => some (mapSet m (str "sign") sign)

/-- Method `QueryOrder(tradeNum)`: the returned pointer (`none` is `nil`) and error. -/
def QueryOrder {R : Type} (uc : CaseTables) (w : World R) (wechat : WechatWebClient)
    (tradeNum : Str) : Option R × Option GoError :=
  let m := queryFields w wechat tradeNum
  match GenSign uc wechat m with
  | (_, _, some err) => (none, some err)
  | (m, sign, none) =>
    let m := mapSet m (str "sign") sign
    let xmlStr := xmlEncode w.rangeOrder m
    match w.PostData wechat.QueryURL (str "text/xml:charset=UTF-8") xmlStr with
    | (_, some err) => (none, some err)
    | (result, none) =>
      let (queryResult, err) := w.Unmarshal result
      (some queryResult, err)

/-! ## Definitions used by the statements -/

/-- The entries the spec signs, rendered: every entry whose key is neither `sign` nor `key`
and whose value is not empty, as `k=v`. -/
def signable (m : Map) : List Str :=
  (m.filter (fun e => decide (e.1 ≠ str "sign" ∧ e.1 ≠ str "key" ∧ e.2 ≠ []))).map
    (fun e => e.1 ++ str "=" ++ e.2)

/-- Tables that leave every string unchanged: the Unicode path on text without case. -/
def caselessTables : CaseTables := ⟨fun s => s, fun s => s⟩

/-- A client for the examples. -/
def sampleClient : WechatWebClient :=
  { AppID := str "wx1", MchID := str "m1", CallbackURL := str "cb", Key := str "SECRET",
    PayURL := str "pay", QueryURL := str "query" }

/-- A hexadecimal digit, in either case: `0-9`, `A-F`, `a-f`. -/
def isHexDigit (b : Byte) : Bool :=
  decide ((48 ≤ b ∧ b ≤ 57) ∨ (65 ≤ b ∧ b ≤ 70) ∨ (97 ≤ b ∧ b ≤ 102))

/-- What the theorems on signatures in mixed case use of the Unicode tables: a string that is
not ASCII never maps, to upper or to lower case, to a string made of hexadecimal digits only.
(In Unicode no character outside ASCII has a hexadecimal digit as its upper or lower case, and
a byte that is not valid UTF-8 maps to U+FFFD.) -/
def CaseTables.HexFree (uc : CaseTables) : Prop :=
  ∀ s : Str, isASCII s = false →
    (∃ b ∈ uc.mapUpper s, isHexDigit b = false) ∧ (∃ b ∈ uc.mapLower s, isHexDigit b = false)

/-- The message of the error of `CheckSign`. -/
def checkSignError : GoError := ⟨str "签名交易错误"⟩

/-- The answer of the HTTPS client to the request `Pay` posts: the signed request map,
encoded, sent to `PayURL`. -/
def payPosted (uc : CaseTables) (w : World WeChatReResult) (wechat : WechatWebClient)
    (charge : Charge) : Str × Option GoError :=
  let g := GenSign uc wechat (payFields w wechat charge)
  w.PostData wechat.PayURL (str "text/xml:charset=UTF-8")
    (xmlEncode w.rangeOrder (mapSet g.1 (str "sign") g.2.1))

/-- A charge for the examples. -/
def sampleCharge : Charge :=
  { Describe := str "book", TradeNum := str "T1", MoneyFee := 100, OpenID := str "o1" }

/-- A world for the examples, whose gateway answers every request with the reply `r`. -/
def sampleWorld (r : WeChatReResult) : World WeChatReResult :=
  { RandomStr1 := str "n1", LocalIP := str "10.0.0.1", rangeOrder := fun m => m,
    PostData := fun _ _ _ => (str "<xml></xml>", none),
    Unmarshal := fun _ => (r, none), Now := 1700000000, RandomStr2 := str "n2" }

/-- A reply with both status codes at success and the prepay token `wx_prepay_xyz`. -/
def successReply : WeChatReResult :=
  { ReturnCode := str "SUCCESS", ReturnMsg := str "OK", ResultCode := str "SUCCESS",
    ErrCodeDes := [], PrepayID := str "wx_prepay_xyz" }

/-- The map `Pay` returns when both status codes are at success. -/
def paySuccessMap (uc : CaseTables) (w : World WeChatReResult) (wechat : WechatWebClient)
    (xmlRe : WeChatReResult) : Map :=
  payReplyFields w wechat xmlRe ++
    [(str "paySign", (GenSign uc wechat (payReplyFields w wechat xmlRe)).2.1)]

/-- A reply whose communication status is a failure, with the message `bad request`. -/
def failReply : WeChatReResult :=
  { ReturnCode := str "FAIL", ReturnMsg := str "bad request", ResultCode := str "SUCCESS",
    ErrCodeDes := str "unused", PrepayID := [] }

/-- The answer of the HTTPS client to the request `QueryOrder` posts: the signed request map,
encoded, sent to `QueryURL`. -/
def queryPosted {R : Type} (uc : CaseTables) (w : World R) (wechat : WechatWebClient)
    (tradeNum : Str) : Str × Option GoError :=
  let g := GenSign uc wechat (queryFields w wechat tradeNum)
  w.PostData wechat.QueryURL (str "text/xml:charset=UTF-8")
    (xmlEncode w.rangeOrder (mapSet g.1 (str "sign") g.2.1))

/-- An upper-case hexadecimal digit: `0-9` or `A-F`. -/
def isUpperHexDigit (b : Byte) : Bool := decide ((48 ≤ b ∧ b ≤ 57) ∨ (65 ≤ b ∧ b ≤ 70))

/-- The field set of the example vector: a=1, b=2 and a key entry. -/
def vectorFields : Map := [(str "a", str "1"), (str "b", str "2"), (str "key", str "SECRET")]

/-- The field set of the example vector without its key entry. -/
def vectorFieldsBare : Map := [(str "a", str "1"), (str "b", str "2")]

/-- A field set with the single entry a = `1&b=2`. -/
def collidingFields : Map := [(str "a", str "1&b=2")]

/-- The entries `GenSign` renders: key neither `sign` nor `key`, value not empty. -/
def signableEntries (m : Map) : Map :=
  m.filter (fun e => decide (e.1 ≠ str "sign" ∧ e.1 ≠ str "key" ∧ e.2 ≠ []))

/-- Strictly ascending in the byte-wise order of Go strings. -/
def StrictlyAscending (ks : List Str) : Prop := ks.Pairwise (fun a b => Str.lt a b = true)

/-- A field set with the keys `a` and `a-`; the byte `-` is below `=`. -/
def dashFields : Map := [(str "a", str "1"), (str "a-", str "2")]

/-- The order of two entries by their rendered strings. -/
def renderedLe (e1 e2 : Str × Str) : Prop := Str.le (sprintfKV e1.1 e1.2) (sprintfKV e2.1 e2.2)

instance renderedLe.dec : DecidableRel renderedLe := fun e1 e2 => by
  unfold renderedLe; infer_instance

/-! # Theorems -/

/-! ## The order of Go strings -/

theorem strLt_irrefl (a : Str) : Str.lt a a = false := by
  induction a with
  | nil => rfl
  | cons x xs ih => simp [Str.lt, ih]

theorem strLt_asymm : ∀ (a b : Str), Str.lt a b = true → Str.lt b a = false
  | [], [] => by simp [Str.lt]
  | [], _ :: _ => by simp [Str.lt]
  | _ :: _, [] => by simp [Str.lt]
  | x :: xs, y :: ys => by
    intro h
    simp only [Str.lt] at h ⊢
    by_cases hxy : x < y
    · have hyx : ¬ y < x := not_lt.mpr (le_of_lt hxy)
      simp [hxy, hyx]
    · by_cases hyx : y < x
      · simp [hxy, hyx] at h
      · simp only [hxy, hyx, if_false] at h ⊢
        exact strLt_asymm xs ys h

theorem strLe_total (a b : Str) : Str.le a b ∨ Str.le b a := by
  unfold Str.le
  cases h : Str.lt b a with
  | false => exact Or.inl rfl
  | true => exact Or.inr (strLt_asymm b a h)

theorem strLe_antisymm : ∀ (a b : Str), Str.le a b → Str.le b a → a = b
  | [], [] => fun _ _ => rfl
  | [], _ :: _ => by simp [Str.le, Str.lt]
  | _ :: _, [] => by simp [Str.le, Str.lt]
  | x :: xs, y :: ys => by
    intro h1 h2
    simp only [Str.le, Str.lt] at h1 h2
    by_cases hxy : x < y
    · simp [hxy] at h2
    · by_cases hyx : y < x
      · simp [hyx] at h1
      · simp only [hxy, hyx, if_false] at h1 h2
        have hx : x = y := le_antisymm (not_lt.mp hyx) (not_lt.mp hxy)
        rw [hx, strLe_antisymm xs ys h1 h2]

theorem strLe_trans : ∀ (a b c : Str), Str.le a b → Str.le b c → Str.le a c
  | [], _, _ => by
    intro _ _
    unfold Str.le
    cases ‹Str› <;> simp [Str.lt]
  | _ :: _, [], _ => by simp [Str.le, Str.lt]
  | _ :: _, _ :: _, [] => by simp [Str.le, Str.lt]
  | x :: xs, y :: ys, z :: zs => by
    intro h1 h2
    simp only [Str.le, Str.lt] at h1 h2 ⊢
    by_cases hyx : y < x
    · simp [hyx] at h1
    · by_cases hzy : z < y
      · simp [hzy] at h2
      · have hzx : ¬ z < x := fun h => hzy (lt_of_lt_of_le h (not_lt.mp hyx))
        by_cases hxy : x < y
        · have hxz : x < z := lt_of_lt_of_le hxy (not_lt.mp hzy)
          simp [hzx, hxz]
        · by_cases hyz : y < z
          · have hxz : x < z := lt_of_le_of_lt (not_lt.mp hyx) hyz
            simp [hzx, hxz]
          · simp only [hyx, hxy, hzy, hyz, if_false] at h1 h2
            have hx : x = y := le_antisymm (not_lt.mp hyx) (not_lt.mp hxy)
            have hy : y = z := le_antisymm (not_lt.mp hzy) (not_lt.mp hyz)
            subst hx; subst hy
            simp only [hyx, if_false]
            exact strLe_trans xs ys zs h1 h2

/-- The order of `Str.lt` is the lexicographic order on byte sequences. -/
theorem strLt_iff_lex : ∀ (a b : Str), Str.lt a b = true ↔ List.Lex (fun x y : Byte => x < y) a b
  | [], [] => by
    simp only [Str.lt]
    constructor
    · intro h; cases h
    · intro h; cases h
  | [], _ :: _ => by
    simp only [Str.lt, true_iff]
    exact List.Lex.nil
  | _ :: _, [] => by
    simp only [Str.lt]
    constructor
    · intro h; cases h
    · intro h; cases h
  | x :: xs, y :: ys => by
    simp only [Str.lt]
    by_cases hxy : x < y
    · simp only [hxy, if_true, true_iff]
      exact List.Lex.rel hxy
    · by_cases hyx : y < x
      · simp only [hxy, hyx, if_true, if_false]
        constructor
        · intro h; cases h
        · intro h
          cases h with
          | cons h => exact absurd hyx (lt_irrefl _)
          | rel h => exact absurd h hxy
      · simp only [hxy, hyx, if_false]
        have hx : x = y := le_antisymm (not_lt.mp hyx) (not_lt.mp hxy)
        subst hx
        rw [strLt_iff_lex xs ys]
        constructor
        · intro h; exact List.Lex.cons h
        · intro h
          cases h with
          | cons h => exact h
          | rel h => exact absurd h hxy

theorem sortStrings_perm (x : List Str) : (sortStrings x).Perm x :=
  List.perm_insertionSort Str.le x

theorem sortStrings_sorted (x : List Str) : (sortStrings x).Sorted Str.le :=
  @List.sorted_insertionSort _ Str.le _ ⟨strLe_total⟩ ⟨strLe_trans⟩ x

/-- A sorted permutation is unique: the result of `sort.Strings` does not depend on how the
library sorts. -/
theorem sortStrings_unique (x L : List Str) (hp : L.Perm x) (hs : L.Sorted Str.le) :
    L = sortStrings x :=
  @List.eq_of_perm_of_sorted _ Str.le ⟨strLe_antisymm⟩ _ _ (hp.trans (sortStrings_perm x).symm) hs (sortStrings_sorted x)

theorem sortStrings_congr {x y : List Str} (h : x.Perm y) : sortStrings x = sortStrings y :=
  sortStrings_unique y (sortStrings x) ((sortStrings_perm x).trans h) (sortStrings_sorted x)

theorem Join_eq_intercalate : ∀ (elems : List Str) (sep : Str),
    Join elems sep = sep.intercalate elems
  | [], _ => by simp [Join, List.intercalate]
  | [e], _ => by simp [Join, List.intercalate]
  | e :: e2 :: es, sep => by
    have ih := Join_eq_intercalate (e2 :: es) sep
    simp only [Join, List.intercalate, List.intersperse, List.map_cons, List.flatten_cons,
      List.append_assoc] at ih ⊢
    rw [ih]

/-! ## MD5 test vectors (RFC 1321, appendix A.5) -/

theorem MD5_sum_empty : hexEncode (MD5.sum []) = str "d41d8cd98f00b204e9800998ecf8427e" := by
  decide

theorem MD5_sum_abc : hexEncode (MD5.sum (str "abc")) = str "900150983cd24fb0d6963f7d28e17f72" := by
  decide

set_option maxRecDepth 100000 in
theorem MD5_sum_digits :
    hexEncode (MD5.sum (str
      "12345678901234567890123456789012345678901234567890123456789012345678901234567890"))
      = str "57edf4a22be3c955ac49da2e2107b67a" := by
  decide

/-! ## The signing string -/

theorem signDataOf_foldl (m : Map) (acc : List Str) :
    m.foldl (fun signData e => if e.2 ≠ [] then signData ++ [sprintfKV e.1 e.2] else signData) acc
      = acc ++ (m.filter (fun e => decide (e.2 ≠ []))).map (fun e => sprintfKV e.1 e.2) := by
  induction m generalizing acc with
  | nil => simp
  | cons e es ih =>
    simp only [List.foldl_cons, ih, List.filter_cons]
    by_cases h : e.2 = []
    · simp [h]
    · simp [h]

theorem signDataOf_eq (m : Map) :
    signDataOf m = (m.filter (fun e => decide (e.2 ≠ []))).map (fun e => sprintfKV e.1 e.2) := by
  unfold signDataOf
  rw [signDataOf_foldl]
  simp

theorem signDataOf_delete (m : Map) :
    signDataOf (mapDelete (mapDelete m (str "sign")) (str "key")) = signable m := by
  rw [signDataOf_eq]
  unfold mapDelete signable sprintfKV
  rw [List.filter_filter, List.filter_filter]
  congr 1
  apply List.filter_congr
  intro e _
  by_cases h1 : e.1 = str "sign" <;> by_cases h2 : e.1 = str "key" <;>
    by_cases h3 : e.2 = [] <;> simp [h1, h2, h3]

theorem signable_perm {m1 m2 : Map} (h : m1.Perm m2) : (signable m1).Perm (signable m2) :=
  (h.filter _).map _

/-! ## Upper case of hexadecimal -/

theorem asciiUpper_of_not_lower (c : Byte) (h : ¬ (97 ≤ c ∧ c ≤ 122)) : asciiUpper c = c := by
  simp [asciiUpper, h]

theorem map_eq_self_of_fixed (f : Byte → Byte) (s : Str) (h : ∀ c ∈ s, f c = c) :
    s.map f = s := by
  induction s with
  | nil => rfl
  | cons c cs ih =>
    simp only [List.map_cons]
    rw [h c (List.mem_cons_self _ _), ih (fun d hd => h d (List.mem_cons_of_mem _ hd))]

theorem ToUpper_ascii (uc : CaseTables) (s : Str) (h : isASCII s = true) :
    ToUpper uc s = s.map asciiUpper := by
  unfold ToUpper
  rw [if_pos h]
  split
  · rfl
  · rename_i hno
    simp only [Bool.not_eq_true, List.any_eq_false, decide_eq_true_eq] at hno
    exact (map_eq_self_of_fixed asciiUpper s
      (fun c hc => asciiUpper_of_not_lower c (hno c hc))).symm

theorem hexDigit_lt (n : Nat) (h : n < 16) : hexDigit n < 128 := by
  interval_cases n <;> decide

theorem isASCII_hexEncode : ∀ (d : Str), isASCII (hexEncode d) = true
  | [] => rfl
  | b :: bs => by
    have ih := isASCII_hexEncode bs
    have h1 : hexDigit (b.val / 16) < 128 := hexDigit_lt _ (by omega)
    have h2 : hexDigit (b.val % 16) < 128 := hexDigit_lt _ (by omega)
    simp only [isASCII, hexEncode, List.all_cons, Bool.and_eq_true, decide_eq_true_eq] at ih ⊢
    exact ⟨h1, h2, ih⟩

/-- On the hexadecimal rendering the upper-casing of `md5sum` is the byte loop: the result is
the upper-case hexadecimal digest, whatever the Unicode tables are. -/
theorem md5sum_eq (uc : CaseTables) (txt : Str) : md5sum uc txt = upperHex (MD5.sum txt) := by
  unfold md5sum upperHex
  exact ToUpper_ascii uc _ (isASCII_hexEncode _)

theorem GenSign_eq (uc : CaseTables) (wechat : WechatWebClient) (m : Map) :
    GenSign uc wechat m =
      (mapDelete (mapDelete m (str "sign")) (str "key"),
        upperHex (MD5.sum (Join (sortStrings (signable m)) (str "&") ++ str "&key=" ++ wechat.Key)),
        none) := by
  unfold GenSign
  simp only [signDataOf_delete, md5sum_eq]

/-- The signature is the `md5sum` of the signing string `signStrOf`. -/
theorem GenSign_sig_eq (uc : CaseTables) (wechat : WechatWebClient) (m : Map) :
    (GenSign uc wechat m).2 = (md5sum uc (signStrOf wechat m), none) := by
  rfl

/-- C1: for every field set and secret, GenSign returns a nil error and the upper-case
hexadecimal MD5 digest of the signing string: the entries other than sign and key with a
non-empty value, rendered k=v, in ascending byte-wise order, joined with an ampersand,
followed by the suffix of the secret. -/
theorem GenSign_signs_sorted_fields (uc : CaseTables) (wechat : WechatWebClient) (m : Map) :
    ∃ L : List Str, L.Perm (signable m) ∧ L.Sorted Str.le ∧
      (GenSign uc wechat m).2 =
        (upperHex (MD5.sum ((str "&").intercalate L ++ str "&key=" ++ wechat.Key)), none) := by
  refine ⟨sortStrings (signable m), sortStrings_perm _, sortStrings_sorted _, ?_⟩
  rw [GenSign_eq, Join_eq_intercalate]

/-- C3: two entry sequences that are permutations of one another get the same signature
(and the same nil error); the keys need not even be distinct. -/
theorem GenSign_ignores_order (uc : CaseTables) (wechat : WechatWebClient) (m1 m2 : Map)
    (h : m1.Perm m2) : (GenSign uc wechat m1).2 = (GenSign uc wechat m2).2 := by
  rw [GenSign_eq, GenSign_eq, sortStrings_congr (signable_perm h)]

/-! ## Reserved keys, empty values, the map of the caller -/

theorem mapDelete_overwrite (m : Map) (k v : Str) :
    mapDelete (m.map (fun e => if e.1 = k then (k, v) else e)) k = mapDelete m k := by
  unfold mapDelete
  induction m with
  | nil => rfl
  | cons e es ih =>
    by_cases h : e.1 = k
    · simp only [List.map_cons, List.filter_cons, h, if_true, ne_eq, not_true_eq_false,
        decide_False, Bool.false_eq_true, if_false]
      exact ih
    · simp only [List.map_cons, List.filter_cons, h, if_false, ne_eq, not_false_eq_true,
        decide_True, if_true]
      rw [ih]

theorem mapDelete_mapSet (m : Map) (k v : Str) : mapDelete (mapSet m k v) k = mapDelete m k := by
  unfold mapSet
  split
  · exact mapDelete_overwrite m k v
  · simp [mapDelete, List.filter_append]

theorem mapDelete_comm (m : Map) (k1 k2 : Str) :
    mapDelete (mapDelete m k1) k2 = mapDelete (mapDelete m k2) k1 := by
  unfold mapDelete
  rw [List.filter_filter, List.filter_filter]
  apply List.filter_congr
  intro e _
  exact Bool.and_comm _ _

theorem mapDelete_idem (m : Map) (k : Str) : mapDelete (mapDelete m k) k = mapDelete m k := by
  unfold mapDelete
  rw [List.filter_filter]
  apply List.filter_congr
  intro e _
  simp

theorem signable_mapDelete_sign (m : Map) : signable (mapDelete m (str "sign")) = signable m := by
  unfold signable mapDelete
  rw [List.filter_filter]
  congr 1
  apply List.filter_congr
  intro e _
  by_cases h1 : e.1 = str "sign" <;> simp [h1]

theorem signable_mapDelete_key (m : Map) : signable (mapDelete m (str "key")) = signable m := by
  unfold signable mapDelete
  rw [List.filter_filter]
  congr 1
  apply List.filter_congr
  intro e _
  by_cases h1 : e.1 = str "key" <;> simp [h1]

theorem signable_congr_delete_sign (m1 m2 : Map)
    (h : mapDelete m1 (str "sign") = mapDelete m2 (str "sign")) : signable m1 = signable m2 := by
  rw [← signable_mapDelete_sign m1, ← signable_mapDelete_sign m2, h]

theorem signable_congr_delete_key (m1 m2 : Map)
    (h : mapDelete m1 (str "key") = mapDelete m2 (str "key")) : signable m1 = signable m2 := by
  rw [← signable_mapDelete_key m1, ← signable_mapDelete_key m2, h]

theorem GenSign_sig_congr (uc : CaseTables) (wechat : WechatWebClient) (m1 m2 : Map)
    (h : signable m1 = signable m2) : (GenSign uc wechat m1).2 = (GenSign uc wechat m2).2 := by
  rw [GenSign_eq, GenSign_eq, h]

/-- Witness of C3, on the field set a=1, b=2 in its two orders. -/
theorem GenSign_ignores_order_witness :
    (GenSign caselessTables sampleClient [(str "a", str "1"), (str "b", str "2")]).2
      = (GenSign caselessTables sampleClient [(str "b", str "2"), (str "a", str "1")]).2 :=
  GenSign_ignores_order caselessTables sampleClient [(str "a", str "1"), (str "b", str "2")]
    [(str "b", str "2"), (str "a", str "1")] (List.Perm.swap _ _ _)

/-- C4: a field set given an entry sign = s, or an entry key = s, gets the same signature
(and nil error) as the field set with that entry removed. -/
theorem GenSign_strips_reserved (uc : CaseTables) (wechat : WechatWebClient) (m : Map) (s : Str) :
    (GenSign uc wechat (mapSet m (str "sign") s)).2
        = (GenSign uc wechat (mapDelete m (str "sign"))).2 ∧
    (GenSign uc wechat (mapSet m (str "key") s)).2
        = (GenSign uc wechat (mapDelete m (str "key"))).2 := by
  constructor
  · apply GenSign_sig_congr
    apply signable_congr_delete_sign
    rw [mapDelete_mapSet, mapDelete_idem]
  · apply GenSign_sig_congr
    apply signable_congr_delete_key
    rw [mapDelete_mapSet, mapDelete_idem]

theorem mapSet_fresh (m : Map) (k v : Str) (h : k ∉ mapKeys m) : mapSet m k v = m ++ [(k, v)] := by
  unfold mapSet
  rw [if_neg]
  intro hany
  simp only [List.any_eq_true, decide_eq_true_eq] at hany
  obtain ⟨e, he, hk⟩ := hany
  exact h (hk ▸ List.mem_map_of_mem Prod.fst he)

/-- C5: extending a field set with a key it does not hold yet, at the empty value, leaves the
signature (and the nil error) unchanged. -/
theorem GenSign_ignores_empty (uc : CaseTables) (wechat : WechatWebClient) (m : Map) (k : Str)
    (h : k ∉ mapKeys m) : (GenSign uc wechat (mapSet m k [])).2 = (GenSign uc wechat m).2 := by
  apply GenSign_sig_congr
  rw [mapSet_fresh m k [] h]
  unfold signable
  simp [List.filter_append]

/-- Witness of C5, on the field set a=1 extended with the empty field b. -/
theorem GenSign_ignores_empty_witness :
    str "b" ∉ mapKeys [(str "a", str "1")] ∧
    (GenSign caselessTables sampleClient (mapSet [(str "a", str "1")] (str "b") [])).2
      = (GenSign caselessTables sampleClient [(str "a", str "1")]).2 :=
  ⟨by decide, GenSign_ignores_empty caselessTables sampleClient [(str "a", str "1")] (str "b")
    (by decide)⟩

/-- C8 as stated fails: called on a map holding the entry sign = x, GenSign leaves the map of
the caller empty. -/
theorem GenSign_mutates_map_counterexample :
    (GenSign caselessTables sampleClient [(str "sign", str "x")]).1 = [] ∧
    (GenSign caselessTables sampleClient [(str "sign", str "x")]).1 ≠ [(str "sign", str "x")] := by
  decide

/-- C8 amended: after GenSign returns, the map of the caller holds exactly the entries it held
before whose key is neither sign nor key, in their order. -/
theorem GenSign_map_after (uc : CaseTables) (wechat : WechatWebClient) (m : Map) :
    (GenSign uc wechat m).1
      = m.filter (fun e => decide (e.1 ≠ str "sign" ∧ e.1 ≠ str "key")) := by
  rw [GenSign_eq]
  unfold mapDelete
  rw [List.filter_filter]
  apply List.filter_congr
  intro e _
  by_cases h1 : e.1 = str "sign" <;> by_cases h2 : e.1 = str "key" <;> simp [h1, h2]

/-! ## Verification -/

theorem CheckSign_eq (uc : CaseTables) (wechat : WechatWebClient) (data sign : Str) :
    CheckSign uc wechat data sign =
      if ToUpper uc sign = upperHex (MD5.sum (data ++ str "&Key=" ++ wechat.Key)) then none
      else some checkSignError := by
  unfold CheckSign checkSignError
  simp only [ToUpper_ascii uc _ (isASCII_hexEncode _), upperHex]

/-- Acceptance by `CheckSign`, in terms of the upper-case hexadecimal digest. -/
theorem CheckSign_accepts_iff (uc : CaseTables) (wechat : WechatWebClient) (data sign : Str) :
    CheckSign uc wechat data sign = none ↔
      ToUpper uc sign = upperHex (MD5.sum (data ++ str "&Key=" ++ wechat.Key)) := by
  rw [CheckSign_eq]
  by_cases h : ToUpper uc sign = upperHex (MD5.sum (data ++ str "&Key=" ++ wechat.Key))
  · simp [h]
  · simp [h]

/-- C2: CheckSign returns nil exactly when the upper-cased presented signature equals the
upper-case hexadecimal MD5 digest of the data followed by the Key suffix (capital K) and the
secret; in every other case it returns its mismatch error, which is not nil. -/
theorem CheckSign_nil_iff (uc : CaseTables) (wechat : WechatWebClient) (data sign : Str) :
    (CheckSign uc wechat data sign = none ↔
      ToUpper uc sign = upperHex (MD5.sum (data ++ str "&Key=" ++ wechat.Key))) ∧
    (CheckSign uc wechat data sign ≠ none ↔
      CheckSign uc wechat data sign = some checkSignError) := by
  rw [CheckSign_eq]
  by_cases h : ToUpper uc sign = upperHex (MD5.sum (data ++ str "&Key=" ++ wechat.Key))
  · simp [h]
  · simp [h]

set_option maxRecDepth 100000 in
theorem isHexDigit_of_not_ascii : ∀ b : Byte, ¬ b < 128 → isHexDigit b = false := by
  decide

theorem caselessTables_hexFree : caselessTables.HexFree := by
  intro s hs
  have : ∃ b ∈ s, isHexDigit b = false := by
    simp only [isASCII, List.all_eq_false, decide_eq_true_eq] at hs
    obtain ⟨b, hb, hlt⟩ := hs
    exact ⟨b, hb, isHexDigit_of_not_ascii b hlt⟩
  exact ⟨this, this⟩

theorem isHexDigit_hexDigit (n : Nat) (h : n < 16) : isHexDigit (asciiUpper (hexDigit n)) = true := by
  interval_cases n <;> decide

theorem isHexDigit_upperHex : ∀ (d : Str), ∀ b ∈ upperHex d, isHexDigit b = true
  | [] => by simp [upperHex, hexEncode]
  | x :: xs => by
    have ih := isHexDigit_upperHex xs
    intro b hb
    simp only [upperHex, hexEncode, List.map_cons, List.mem_cons] at hb ih
    rcases hb with hb | hb | hb
    · rw [hb]; exact isHexDigit_hexDigit _ (by omega)
    · rw [hb]; exact isHexDigit_hexDigit _ (by omega)
    · exact ih b hb

/-- Under `HexFree`, only an ASCII signature can upper-case to a hexadecimal digest. -/
theorem isASCII_of_ToUpper_eq (uc : CaseTables) (hU : uc.HexFree) (s d : Str)
    (h : ToUpper uc s = upperHex d) : isASCII s = true := by
  cases hs : isASCII s with
  | true => rfl
  | false =>
    exfalso
    obtain ⟨⟨b, hb, hnot⟩, _⟩ := hU s hs
    have hup : ToUpper uc s = uc.mapUpper s := by simp [ToUpper, hs]
    rw [← hup, h] at hb
    rw [isHexDigit_upperHex d b hb] at hnot
    exact Bool.noConfusion hnot

set_option maxRecDepth 100000 in
theorem asciiUpper_asciiLower : ∀ c : Byte, asciiUpper (asciiLower c) = asciiUpper c := by
  decide

set_option maxRecDepth 100000 in
theorem asciiLower_lt : ∀ c : Byte, c < 128 → asciiLower c < 128 := by
  decide

set_option maxRecDepth 100000 in
theorem isHexDigit_of_asciiUpper : ∀ c : Byte, isHexDigit (asciiUpper c) = true → isHexDigit c = true := by
  decide

set_option maxRecDepth 100000 in
theorem isHexDigit_lt : ∀ c : Byte, isHexDigit c = true → c < 128 := by
  decide

theorem ToLower_ascii (uc : CaseTables) (s : Str) (h : isASCII s = true) :
    ToLower uc s = s.map asciiLower := by
  unfold ToLower
  rw [if_pos h]
  split
  · rfl
  · rename_i hno
    simp only [Bool.not_eq_true, List.any_eq_false, decide_eq_true_eq] at hno
    exact (map_eq_self_of_fixed asciiLower s
      (fun c hc => by simp [asciiLower, hno c hc])).symm

theorem isASCII_map_asciiLower (s : Str) (h : isASCII s = true) :
    isASCII (s.map asciiLower) = true := by
  simp only [isASCII, List.all_eq_true, decide_eq_true_eq, List.mem_map] at h ⊢
  rintro c ⟨d, hd, rfl⟩
  exact asciiLower_lt d (h d hd)

theorem map_asciiUpper_asciiLower (s : Str) :
    (s.map asciiLower).map asciiUpper = s.map asciiUpper := by
  rw [List.map_map]
  apply List.map_congr_left
  intro c _
  exact asciiUpper_asciiLower c

/-- An ASCII signature and its lower-case form have the same upper-case form. -/
theorem ToUpper_ToLower_ascii (uc : CaseTables) (s : Str) (h : isASCII s = true) :
    ToUpper uc (ToLower uc s) = ToUpper uc s := by
  rw [ToLower_ascii uc s h, ToUpper_ascii uc _ (isASCII_map_asciiLower s h),
    ToUpper_ascii uc s h, map_asciiUpper_asciiLower]

/-- C6 as stated fails: the lower-case digest of a=1 under the secret SECRET is accepted, and
so is the string that differs from it in the first character only, F for f. -/
theorem CheckSign_tamper_counterexample :
    CheckSign caselessTables sampleClient (str "a=1")
        (str "f80ba5cbf95691d6efeb22e656b4db6c") = none ∧
    (str "f80ba5cbf95691d6efeb22e656b4db6c").set 0 70 = str "F80ba5cbf95691d6efeb22e656b4db6c" ∧
    (str "f80ba5cbf95691d6efeb22e656b4db6c").head? = some 102 ∧
    CheckSign caselessTables sampleClient (str "a=1")
        (str "F80ba5cbf95691d6efeb22e656b4db6c") = none := by
  decide

/-- C6 amended: when CheckSign accepts a signature, it rejects every string obtained from it
by replacing one character with a character that is not the same letter in the other case
(one whose ASCII upper-case form differs from that of the character replaced). -/
theorem CheckSign_rejects_tampering (uc : CaseTables) (hU : uc.HexFree)
    (wechat : WechatWebClient) (data sig : Str) (i : Nat) (c : Byte) (hi : i < sig.length)
    (hvalid : CheckSign uc wechat data sig = none)
    (hc : asciiUpper c ≠ asciiUpper (sig.get ⟨i, hi⟩)) :
    CheckSign uc wechat data (sig.set i c) ≠ none := by
  intro hacc
  have h1 := (CheckSign_accepts_iff uc wechat data sig).1 hvalid
  have h2 := (CheckSign_accepts_iff uc wechat data (sig.set i c)).1 hacc
  have a1 := isASCII_of_ToUpper_eq uc hU _ _ h1
  have a2 := isASCII_of_ToUpper_eq uc hU _ _ h2
  rw [ToUpper_ascii uc _ a1] at h1
  rw [ToUpper_ascii uc _ a2, ← h1, List.map_set] at h2
  have hlen : i < (sig.map asciiUpper).length := by simpa using hi
  have h3 : ((sig.map asciiUpper).set i (asciiUpper c))[i]? = (sig.map asciiUpper)[i]? := by
    rw [h2]
  rw [List.getElem?_set_self hlen, List.getElem?_map, List.getElem?_eq_getElem hi] at h3
  simp only [Option.map_some', Option.some.injEq] at h3
  exact hc h3

/-- Witness of C6 amended: the digest of a=1 with its first character replaced by 0. -/
theorem CheckSign_rejects_tampering_witness :
    CheckSign caselessTables sampleClient (str "a=1")
      (str "f80ba5cbf95691d6efeb22e656b4db6c") = none ∧
    CheckSign caselessTables sampleClient (str "a=1")
      ((str "f80ba5cbf95691d6efeb22e656b4db6c").set 0 48) ≠ none :=
  ⟨by decide,
    CheckSign_rejects_tampering caselessTables caselessTables_hexFree sampleClient (str "a=1")
      (str "f80ba5cbf95691d6efeb22e656b4db6c") 0 48 (by decide) (by decide) (by decide)⟩

/-- C7: CheckSign accepts a presented signature exactly when it accepts its lower-case form. -/
theorem CheckSign_case_insensitive (uc : CaseTables) (hU : uc.HexFree)
    (wechat : WechatWebClient) (data sig : Str) :
    CheckSign uc wechat data sig = none ↔ CheckSign uc wechat data (ToLower uc sig) = none := by
  rw [CheckSign_accepts_iff uc wechat data sig,
    CheckSign_accepts_iff uc wechat data (ToLower uc sig)]
  constructor
  · intro h
    have a1 := isASCII_of_ToUpper_eq uc hU _ _ h
    rw [ToUpper_ToLower_ascii uc sig a1]
    exact h
  · intro h
    have a2 := isASCII_of_ToUpper_eq uc hU _ _ h
    have a1 : isASCII sig = true := by
      cases hs : isASCII sig with
      | true => rfl
      | false =>
        exfalso
        obtain ⟨_, b, hb, hnot⟩ := hU sig hs
        have hlo : ToLower uc sig = uc.mapLower sig := by simp [ToLower, hs]
        rw [← hlo] at hb
        rw [ToUpper_ascii uc _ a2] at h
        have hup : isHexDigit (asciiUpper b) = true := by
          apply isHexDigit_upperHex (MD5.sum (data ++ str "&Key=" ++ wechat.Key))
          rw [← h]
          exact List.mem_map_of_mem asciiUpper hb
        rw [isHexDigit_of_asciiUpper b hup] at hnot
        exact Bool.noConfusion hnot
    rw [ToUpper_ToLower_ascii uc sig a1] at h
    exact h

/-- Witness of C7, on the upper-case digest of a=1 under the secret SECRET. -/
theorem CheckSign_case_insensitive_witness :
    caselessTables.HexFree ∧
    (CheckSign caselessTables sampleClient (str "a=1")
        (str "F80BA5CBF95691D6EFEB22E656B4DB6C") = none ↔
      CheckSign caselessTables sampleClient (str "a=1")
        (ToLower caselessTables (str "F80BA5CBF95691D6EFEB22E656B4DB6C")) = none) :=
  ⟨caselessTables_hexFree,
    CheckSign_case_insensitive caselessTables caselessTables_hexFree sampleClient (str "a=1")
      (str "F80BA5CBF95691D6EFEB22E656B4DB6C")⟩

/-! ## Pay -/

theorem payReplyFields_eq (w : World WeChatReResult) (wechat : WechatWebClient)
    (xmlRe : WeChatReResult) :
    payReplyFields w wechat xmlRe =
      [(str "appId", wechat.AppID), (str "timeStamp", sprintfInt w.Now),
        (str "nonceStr", w.RandomStr2), (str "package", str "prepay_id=" ++ xmlRe.PrepayID),
        (str "signType", str "MD5")] := by
  rfl

/-- Method `Pay` after a reply that was transported and decoded: the two status checks, then
the signed map for the caller. -/
theorem Pay_of_reply (uc : CaseTables) (w : World WeChatReResult) (wechat : WechatWebClient)
    (charge : Charge) (re : Str) (xmlRe : WeChatReResult)
    (hpost : payPosted uc w wechat charge = (re, none))
    (hdec : w.Unmarshal re = (xmlRe, none)) :
    Pay uc w wechat charge =
      if xmlRe.ReturnCode ≠ str "SUCCESS" then ([], some ⟨xmlRe.ReturnMsg⟩)
      else if xmlRe.ResultCode ≠ str "SUCCESS" then ([], some ⟨xmlRe.ErrCodeDes⟩)
      else (paySuccessMap uc w wechat xmlRe, none) := by
  unfold payPosted at hpost
  simp only [GenSign_eq] at hpost
  unfold Pay
  simp only [GenSign_eq, hpost, hdec]
  split
  · rfl
  · split
    · rfl
    · unfold paySuccessMap
      simp only [GenSign_eq, payReplyFields_eq]
      rfl

/-- When `Pay` returns a nil error, the reply was transported and decoded, both status codes
are at success, and the returned map is `paySuccessMap`. -/
theorem Pay_success_inv (uc : CaseTables) (w : World WeChatReResult) (wechat : WechatWebClient)
    (charge : Charge) (h : (Pay uc w wechat charge).2 = none) :
    ∃ xmlRe : WeChatReResult, xmlRe.ReturnCode = str "SUCCESS" ∧ xmlRe.ResultCode = str "SUCCESS" ∧
      (Pay uc w wechat charge).1 = paySuccessMap uc w wechat xmlRe := by
  rcases hpost : payPosted uc w wechat charge with ⟨re, _ | perr⟩
  · rcases hdec : w.Unmarshal re with ⟨xmlRe, _ | derr⟩
    · rw [Pay_of_reply uc w wechat charge re xmlRe hpost hdec] at h ⊢
      by_cases h1 : xmlRe.ReturnCode = str "SUCCESS"
      · by_cases h2 : xmlRe.ResultCode = str "SUCCESS"
        · exact ⟨xmlRe, h1, h2, by simp [h1, h2]⟩
        · simp [h1, h2] at h
      · simp [h1] at h
    · exfalso
      unfold payPosted at hpost
      simp only [GenSign_eq] at hpost
      unfold Pay at h
      simp only [GenSign_eq, hpost, hdec] at h
      exact Option.noConfusion h
  · exfalso
    unfold payPosted at hpost
    simp only [GenSign_eq] at hpost
    unfold Pay at h
    simp only [GenSign_eq, hpost] at h
    exact Option.noConfusion h

/-- C9: when Pay succeeds, the paySign value of the returned field set is the signature
GenSign computes, with the secret of the client, over the returned field set without its
paySign entry, whose keys are appId, timeStamp, nonceStr, package and signType. -/
theorem Pay_paySign_verifies (uc : CaseTables) (w : World WeChatReResult)
    (wechat : WechatWebClient) (charge : Charge) (h : (Pay uc w wechat charge).2 = none) :
    mapLookup (Pay uc w wechat charge).1 (str "paySign")
      = some (GenSign uc wechat (mapDelete (Pay uc w wechat charge).1 (str "paySign"))).2.1 ∧
    mapKeys (mapDelete (Pay uc w wechat charge).1 (str "paySign"))
      = [str "appId", str "timeStamp", str "nonceStr", str "package", str "signType"] := by
  obtain ⟨xmlRe, _, _, hc⟩ := Pay_success_inv uc w wechat charge h
  rw [hc]
  have hdel : mapDelete (paySuccessMap uc w wechat xmlRe) (str "paySign")
      = payReplyFields w wechat xmlRe := by
    unfold paySuccessMap
    rw [payReplyFields_eq]
    rfl
  rw [hdel]
  constructor
  · unfold paySuccessMap
    rw [payReplyFields_eq]
    rfl
  · rw [payReplyFields_eq]
    rfl

/-- Witness of C9, on a gateway that answers success with the prepay token wx_prepay_xyz. -/
theorem Pay_paySign_verifies_witness :
    (Pay caselessTables (sampleWorld successReply) sampleClient sampleCharge).2 = none ∧
    mapLookup (Pay caselessTables (sampleWorld successReply) sampleClient sampleCharge).1
        (str "paySign")
      = some (GenSign caselessTables sampleClient
          (mapDelete (Pay caselessTables (sampleWorld successReply) sampleClient sampleCharge).1
            (str "paySign"))).2.1 :=
  ⟨by decide,
    (Pay_paySign_verifies caselessTables (sampleWorld successReply) sampleClient sampleCharge
      (by decide)).1⟩

/-- C10: after a reply that was transported and decoded, Pay fails exactly when a status is
not SUCCESS, the communication status first: the error carries the return message when the
return code is not SUCCESS, otherwise the error-code description when the result code is not
SUCCESS, and otherwise the error is nil. -/
theorem Pay_status_errors (uc : CaseTables) (w : World WeChatReResult)
    (wechat : WechatWebClient) (charge : Charge) (re : Str) (xmlRe : WeChatReResult)
    (hpost : payPosted uc w wechat charge = (re, none))
    (hdec : w.Unmarshal re = (xmlRe, none)) :
    (Pay uc w wechat charge).2 =
      if xmlRe.ReturnCode ≠ str "SUCCESS" then some ⟨xmlRe.ReturnMsg⟩
      else if xmlRe.ResultCode ≠ str "SUCCESS" then some ⟨xmlRe.ErrCodeDes⟩
      else none := by
  rw [Pay_of_reply uc w wechat charge re xmlRe hpost hdec]
  split
  · rfl
  · split <;> rfl

/-- Witness of C10, on a gateway that answers a communication failure. -/
theorem Pay_status_errors_witness :
    (Pay caselessTables (sampleWorld failReply) sampleClient sampleCharge).2 =
      if failReply.ReturnCode ≠ str "SUCCESS" then some ⟨failReply.ReturnMsg⟩
      else if failReply.ResultCode ≠ str "SUCCESS" then some ⟨failReply.ErrCodeDes⟩
      else none :=
  Pay_status_errors caselessTables (sampleWorld failReply) sampleClient sampleCharge
    (str "<xml></xml>") failReply rfl rfl

/-! ## QueryOrder -/

/-- C11: after a reply that was transported and decoded, QueryOrder returns the decoded
result unchanged and a nil error, whatever the result holds (no status code is read). -/
theorem QueryOrder_returns_reply {R : Type} (uc : CaseTables) (w : World R)
    (wechat : WechatWebClient) (tradeNum : Str) (result : Str) (queryResult : R)
    (hpost : queryPosted uc w wechat tradeNum = (result, none))
    (hdec : w.Unmarshal result = (queryResult, none)) :
    QueryOrder uc w wechat tradeNum = (some queryResult, none) := by
  unfold queryPosted at hpost
  simp only [GenSign_eq] at hpost
  unfold QueryOrder
  simp only [GenSign_eq, hpost, hdec]

/-- Witness of C11, on a gateway whose decoded reply reports a communication failure. -/
theorem QueryOrder_returns_reply_witness :
    QueryOrder caselessTables (sampleWorld failReply) sampleClient (str "T1")
      = (some failReply, none) :=
  QueryOrder_returns_reply caselessTables (sampleWorld failReply) sampleClient (str "T1")
    (str "<xml></xml>") failReply rfl rfl

/-! ## The shape of a signature -/

theorem MD5_leBytes_length (n x : Nat) : (MD5.leBytes n x).length = n := by
  simp [MD5.leBytes]

/-- An MD5 digest is 16 bytes. -/
theorem MD5_sum_length (msg : Str) : (MD5.sum msg).length = 16 := by
  unfold MD5.sum
  simp only [List.length_append, MD5_leBytes_length]

theorem hexEncode_length : ∀ (d : Str), (hexEncode d).length = 2 * d.length
  | [] => rfl
  | _ :: bs => by
    simp only [hexEncode, List.length_cons, hexEncode_length bs]
    omega

theorem isUpperHexDigit_hexDigit (n : Nat) (h : n < 16) :
    isUpperHexDigit (asciiUpper (hexDigit n)) = true := by
  interval_cases n <;> decide

theorem isUpperHexDigit_upperHex : ∀ (d : Str), ∀ b ∈ upperHex d, isUpperHexDigit b = true
  | [] => by simp [upperHex, hexEncode]
  | x :: xs => by
    have ih := isUpperHexDigit_upperHex xs
    intro b hb
    simp only [upperHex, hexEncode, List.map_cons, List.mem_cons] at hb ih
    rcases hb with hb | hb | hb
    · rw [hb]; exact isUpperHexDigit_hexDigit _ (by omega)
    · rw [hb]; exact isUpperHexDigit_hexDigit _ (by omega)
    · exact ih b hb

/-- C13: the signature GenSign returns is 32 characters long and every character is one of
0-9 or A-F; the MD5 digest it renders is 16 bytes. -/
theorem GenSign_signature_shape (uc : CaseTables) (wechat : WechatWebClient) (m : Map) :
    (GenSign uc wechat m).2.1.length = 32 ∧
    (∀ b ∈ (GenSign uc wechat m).2.1, isUpperHexDigit b = true) ∧
    (MD5.sum (signStrOf wechat m)).length = 16 := by
  rw [GenSign_sig_eq, md5sum_eq]
  refine ⟨?_, ?_, MD5_sum_length _⟩
  · simp only [upperHex, List.length_map, hexEncode_length, MD5_sum_length]
  · exact isUpperHexDigit_upperHex _

/-! ## The signing string on examples -/

theorem signStrOf_eq (wechat : WechatWebClient) (m : Map) :
    signStrOf wechat m = Join (sortStrings (signable m)) (str "&") ++ str "&key=" ++ wechat.Key := by
  unfold signStrOf
  simp only [signDataOf_delete]

/-- C14: with the secret SECRET, the signing string GenSign builds for the field set a=1, b=2,
key=SECRET, and for the field set a=1, b=2, in any order of their entries, is exactly
a=1&b=2&key=SECRET, and the signature is the upper-case hexadecimal MD5 of that string. -/
theorem GenSign_example_vector (uc : CaseTables) (wechat : WechatWebClient) (m : Map)
    (hK : wechat.Key = str "SECRET") (hm : m.Perm vectorFields ∨ m.Perm vectorFieldsBare) :
    signStrOf wechat m = str "a=1&b=2&key=SECRET" ∧
    (GenSign uc wechat m).2 = (upperHex (MD5.sum (str "a=1&b=2&key=SECRET")), none) ∧
    upperHex (MD5.sum (str "a=1&b=2&key=SECRET")) = str "404401AD9CD3F5C0F447F93F45E7A162" := by
  have hs : sortStrings (signable m) = [str "a=1", str "b=2"] := by
    rcases hm with hm | hm
    · rw [sortStrings_congr (signable_perm hm)]; decide
    · rw [sortStrings_congr (signable_perm hm)]; decide
  have hstr : signStrOf wechat m = str "a=1&b=2&key=SECRET" := by
    rw [signStrOf_eq, hs, hK]; decide
  refine ⟨hstr, ?_, by decide⟩
  rw [GenSign_sig_eq, md5sum_eq, hstr]

/-- Witness of C14, on the field set listed as b=2, key=SECRET, a=1. -/
theorem GenSign_example_vector_witness :
    signStrOf sampleClient [(str "b", str "2"), (str "key", str "SECRET"), (str "a", str "1")]
      = str "a=1&b=2&key=SECRET" ∧
    (GenSign caselessTables sampleClient
        [(str "b", str "2"), (str "key", str "SECRET"), (str "a", str "1")]).2
      = (str "404401AD9CD3F5C0F447F93F45E7A162", none) := by
  have h := GenSign_example_vector caselessTables sampleClient
    [(str "b", str "2"), (str "key", str "SECRET"), (str "a", str "1")] rfl
    (Or.inl (by decide))
  exact ⟨h.1, by rw [h.2.1, h.2.2]⟩

/-- C18: the signing string does not determine the field set: for every secret, the field
set with the single entry a = 1&b=2 and the field set a=1, b=2, which hold no reserved key and
no empty value and are not the same set of entries, get the same signing string and the same
signature. -/
theorem GenSign_not_injective (uc : CaseTables) (wechat : WechatWebClient) :
    signStrOf wechat collidingFields = signStrOf wechat vectorFieldsBare ∧
    (GenSign uc wechat collidingFields).2 = (GenSign uc wechat vectorFieldsBare).2 ∧
    ¬ collidingFields.Perm vectorFieldsBare ∧
    (∀ e ∈ collidingFields ++ vectorFieldsBare,
      e.1 ≠ str "sign" ∧ e.1 ≠ str "key" ∧ e.2 ≠ []) := by
  have hj : Join (sortStrings (signable collidingFields)) (str "&")
      = Join (sortStrings (signable vectorFieldsBare)) (str "&") := by decide
  have hs : signStrOf wechat collidingFields = signStrOf wechat vectorFieldsBare := by
    rw [signStrOf_eq, signStrOf_eq, hj]
  refine ⟨hs, ?_, ?_, by decide⟩
  · rw [GenSign_sig_eq, GenSign_sig_eq, hs]
  · intro h
    exact absurd h.length_eq (by decide)

/-! ## The request of Pay and QueryOrder -/

theorem mapSet_cons_ne (k0 v0 : Str) (m : Map) (k v : Str) (h : k0 ≠ k) :
    mapSet ((k0, v0) :: m) k v = (k0, v0) :: mapSet m k v := by
  unfold mapSet
  simp only [List.any_cons, h, decide_False, Bool.false_or, List.map_cons, if_false]
  split <;> rfl

theorem mapSet_nil (k v : Str) : mapSet [] k v = [(k, v)] := by
  rfl

theorem payFields_eq {R : Type} (w : World R) (wechat : WechatWebClient) (charge : Charge) :
    payFields w wechat charge =
      [(str "appid", wechat.AppID), (str "mch_id", wechat.MchID),
        (str "nonce_str", w.RandomStr1), (str "body", charge.Describe),
        (str "out_trade_no", charge.TradeNum), (str "total_fee", sprintfInt charge.MoneyFee),
        (str "spbill_create_ip", w.LocalIP), (str "notify_url", wechat.CallbackURL),
        (str "trade_type", str "JSAPI"), (str "openid", charge.OpenID)] := by
  simp (disch := decide) only [payFields, mapSet_nil, mapSet_cons_ne]

theorem queryFields_eq {R : Type} (w : World R) (wechat : WechatWebClient) (tradeNum : Str) :
    queryFields w wechat tradeNum =
      [(str "appid", wechat.AppID), (str "mch_id", wechat.MchID),
        (str "out_trade_no", tradeNum), (str "nonce_str", w.RandomStr1)] := by
  rfl

theorem xmlEncode_foldl (l : Map) (acc : Str) :
    l.foldl (fun buf e => buf ++ xmlField e.1 e.2) acc
      = acc ++ (l.map (fun e => xmlField e.1 e.2)).flatten := by
  induction l generalizing acc with
  | nil => simp
  | cons e es ih => simp only [List.foldl_cons, ih, List.map_cons, List.flatten_cons,
      List.append_assoc]

/-- The document is the elements of the entries, in the order of the loop, inside `<xml>`. -/
theorem xmlEncode_eq (order : Map → Map) (m : Map) :
    xmlEncode order m
      = str "<xml>" ++ ((order m).map (fun e => xmlField e.1 e.2)).flatten ++ str "</xml>" := by
  unfold xmlEncode
  simp only [xmlEncode_foldl, List.nil_append]

/-- Signing a map that holds neither reserved key and storing the signature under `sign`. -/
theorem signed_request (uc : CaseTables) (wechat : WechatWebClient) (m : Map)
    (h1 : str "sign" ∉ mapKeys m) (h2 : str "key" ∉ mapKeys m) :
    mapSet (GenSign uc wechat m).1 (str "sign") (GenSign uc wechat m).2.1
        = m ++ [(str "sign", (GenSign uc wechat m).2.1)] ∧
    mapLookup (m ++ [(str "sign", (GenSign uc wechat m).2.1)]) (str "sign")
        = some (GenSign uc wechat (mapDelete (m ++ [(str "sign", (GenSign uc wechat m).2.1)])
            (str "sign"))).2.1 ∧
    str "key" ∉ mapKeys (m ++ [(str "sign", (GenSign uc wechat m).2.1)]) := by
  have hk : ∀ (k : Str), k ∉ mapKeys m → mapDelete m k = m := by
    intro k hk
    unfold mapDelete
    rw [List.filter_eq_self]
    intro e he
    simp only [ne_eq, decide_eq_true_eq]
    intro hek
    exact hk (hek ▸ List.mem_map_of_mem Prod.fst he)
  have hmap : (GenSign uc wechat m).1 = m := by
    rw [GenSign_eq]
    simp only [hk _ h1, hk _ h2]
  refine ⟨?_, ?_, ?_⟩
  · rw [hmap]
    exact mapSet_fresh m _ _ h1
  · have hdel : mapDelete (m ++ [(str "sign", (GenSign uc wechat m).2.1)]) (str "sign") = m := by
      unfold mapDelete
      rw [List.filter_append]
      have := hk _ h1
      unfold mapDelete at this
      rw [this]
      simp
    rw [hdel]
    unfold mapLookup
    rw [List.find?_append]
    have hnone : m.find? (fun e => decide (e.1 = str "sign")) = none := by
      rw [List.find?_eq_none]
      intro e he
      simp only [decide_eq_true_eq]
      intro hek
      exact h1 (hek ▸ List.mem_map_of_mem Prod.fst he)
    rw [hnone]
    simp
  · unfold mapKeys at h2 ⊢
    simp only [List.map_append, List.map_cons, List.map_nil, List.mem_append,
      List.mem_singleton, not_or]
    exact ⟨h2, by decide⟩

/-- Method `Pay` by the answer of the HTTPS client to the request it posts. -/
theorem Pay_cases (uc : CaseTables) (w : World WeChatReResult) (wechat : WechatWebClient)
    (charge : Charge) :
    Pay uc w wechat charge =
      match payPosted uc w wechat charge with
      | (_, some err) => ([], some err)
      | (re, none) =>
        match w.Unmarshal re with
        | (_, some err) => ([], some err)
        | (xmlRe, none) =>
          if xmlRe.ReturnCode ≠ str "SUCCESS" then ([], some ⟨xmlRe.ReturnMsg⟩)
          else if xmlRe.ResultCode ≠ str "SUCCESS" then ([], some ⟨xmlRe.ErrCodeDes⟩)
          else (paySuccessMap uc w wechat xmlRe, none) := by
  rcases hpost : payPosted uc w wechat charge with ⟨re, _ | perr⟩
  · rcases hdec : w.Unmarshal re with ⟨xmlRe, _ | derr⟩
    · rw [Pay_of_reply uc w wechat charge re xmlRe hpost hdec]
      simp only [hdec]
    · unfold payPosted at hpost
      simp only [GenSign_eq] at hpost
      unfold Pay
      simp only [GenSign_eq, hpost, hdec]
  · unfold payPosted at hpost
    simp only [GenSign_eq] at hpost
    unfold Pay
    simp only [GenSign_eq, hpost]

/-- Method `QueryOrder` by the answer of the HTTPS client to the request it posts. -/
theorem QueryOrder_cases {R : Type} (uc : CaseTables) (w : World R) (wechat : WechatWebClient)
    (tradeNum : Str) :
    QueryOrder uc w wechat tradeNum =
      match queryPosted uc w wechat tradeNum with
      | (_, some err) => (none, some err)
      | (result, none) => (some (w.Unmarshal result).1, (w.Unmarshal result).2) := by
  rcases hpost : queryPosted uc w wechat tradeNum with ⟨result, _ | perr⟩
  · unfold queryPosted at hpost
    simp only [GenSign_eq] at hpost
    unfold QueryOrder
    simp only [GenSign_eq, hpost]
  · unfold queryPosted at hpost
    simp only [GenSign_eq] at hpost
    unfold QueryOrder
    simp only [GenSign_eq, hpost]

/-- C12: the request map that Pay, and the one that QueryOrder, encodes and posts has a sign
entry equal to the signature GenSign computes over its other entries, and no entry named key;
the document posted is the xml opening tag, one element per entry of the map, the key as tag
around the value in a CDATA section, in the order the loop visits the entries, and the closing
tag; what Pay and QueryOrder return is decided by the answer to that document. -/
theorem request_signed_and_encoded {R : Type} (uc : CaseTables) (w : World WeChatReResult)
    (wq : World R) (wechat : WechatWebClient) (charge : Charge) (tradeNum : Str)
    (hw : ∀ m, (w.rangeOrder m).Perm m) (hwq : ∀ m, (wq.rangeOrder m).Perm m) :
    (∃ (req : Map) (doc : Str), payRequest uc w wechat charge = some req ∧
      mapLookup req (str "sign")
        = some (GenSign uc wechat (mapDelete req (str "sign"))).2.1 ∧
      str "key" ∉ mapKeys req ∧
      (∃ L : Map, L.Perm req ∧ doc = str "<xml>" ++ (L.map (fun e =>
          str "<" ++ e.1 ++ str "><![CDATA[" ++ e.2 ++ str "]]></" ++ e.1 ++ str ">")).flatten
          ++ str "</xml>") ∧
      payPosted uc w wechat charge
        = w.PostData wechat.PayURL (str "text/xml:charset=UTF-8") doc ∧
      Pay uc w wechat charge =
        match w.PostData wechat.PayURL (str "text/xml:charset=UTF-8") doc with
        | (_, some err) => ([], some err)
        | (re, none) =>
          match w.Unmarshal re with
          | (_, some err) => ([], some err)
          | (xmlRe, none) =>
            if xmlRe.ReturnCode ≠ str "SUCCESS" then ([], some ⟨xmlRe.ReturnMsg⟩)
            else if xmlRe.ResultCode ≠ str "SUCCESS" then ([], some ⟨xmlRe.ErrCodeDes⟩)
            else (paySuccessMap uc w wechat xmlRe, none)) ∧
    (∃ (req : Map) (doc : Str), queryRequest uc wq wechat tradeNum = some req ∧
      mapLookup req (str "sign")
        = some (GenSign uc wechat (mapDelete req (str "sign"))).2.1 ∧
      str "key" ∉ mapKeys req ∧
      (∃ L : Map, L.Perm req ∧ doc = str "<xml>" ++ (L.map (fun e =>
          str "<" ++ e.1 ++ str "><![CDATA[" ++ e.2 ++ str "]]></" ++ e.1 ++ str ">")).flatten
          ++ str "</xml>") ∧
      queryPosted uc wq wechat tradeNum
        = wq.PostData wechat.QueryURL (str "text/xml:charset=UTF-8") doc ∧
      QueryOrder uc wq wechat tradeNum =
        match wq.PostData wechat.QueryURL (str "text/xml:charset=UTF-8") doc with
        | (_, some err) => (none, some err)
        | (result, none) => (some (wq.Unmarshal result).1, (wq.Unmarshal result).2)) := by
  have hp1 : str "sign" ∉ mapKeys (payFields w wechat charge) := by
    rw [payFields_eq]; simp only [mapKeys, List.map_cons, List.map_nil]; decide
  have hp2 : str "key" ∉ mapKeys (payFields w wechat charge) := by
    rw [payFields_eq]; simp only [mapKeys, List.map_cons, List.map_nil]; decide
  have hq1 : str "sign" ∉ mapKeys (queryFields wq wechat tradeNum) := by
    rw [queryFields_eq]; simp only [mapKeys, List.map_cons, List.map_nil]; decide
  have hq2 : str "key" ∉ mapKeys (queryFields wq wechat tradeNum) := by
    rw [queryFields_eq]; simp only [mapKeys, List.map_cons, List.map_nil]; decide
  obtain ⟨ps, pl, pk⟩ := signed_request uc wechat _ hp1 hp2
  obtain ⟨qs, ql, qk⟩ := signed_request uc wechat _ hq1 hq2
  have hshape : ∀ (order : Map → Map) (m : Map), xmlEncode order m
      = str "<xml>" ++ ((order m).map (fun e =>
          str "<" ++ e.1 ++ str "><![CDATA[" ++ e.2 ++ str "]]></" ++ e.1 ++ str ">")).flatten
          ++ str "</xml>" := by
    intro order m
    rw [xmlEncode_eq]
    simp only [xmlField]
  have hpp : payPosted uc w wechat charge
      = w.PostData wechat.PayURL (str "text/xml:charset=UTF-8")
          (xmlEncode w.rangeOrder (payFields w wechat charge ++
            [(str "sign", (GenSign uc wechat (payFields w wechat charge)).2.1)])) := by
    unfold payPosted
    simp only [ps]
  have hqp : queryPosted uc wq wechat tradeNum
      = wq.PostData wechat.QueryURL (str "text/xml:charset=UTF-8")
          (xmlEncode wq.rangeOrder (queryFields wq wechat tradeNum ++
            [(str "sign", (GenSign uc wechat (queryFields wq wechat tradeNum)).2.1)])) := by
    unfold queryPosted
    simp only [qs]
  constructor
  · refine ⟨_, _, ?_, pl, pk, ⟨_, hw _, hshape _ _⟩, hpp, ?_⟩
    · unfold payRequest
      rw [← ps, GenSign_eq]
    · rw [Pay_cases, hpp]
  · refine ⟨_, _, ?_, ql, qk, ⟨_, hwq _, hshape _ _⟩, hqp, ?_⟩
    · unfold queryRequest
      rw [← qs, GenSign_eq]
    · rw [QueryOrder_cases, hqp]

set_option maxRecDepth 100000 in
/-- Witness of C12, on a world whose loop visits the entries in the order of insertion: the
document of the sample charge, in full. -/
theorem request_signed_and_encoded_witness :
    (∃ req : Map, payRequest caselessTables (sampleWorld successReply) sampleClient sampleCharge
        = some req ∧
      mapLookup req (str "sign")
        = some (GenSign caselessTables sampleClient (mapDelete req (str "sign"))).2.1 ∧
      str "key" ∉ mapKeys req) ∧
    (payRequest caselessTables (sampleWorld successReply) sampleClient sampleCharge).map
        (xmlEncode (sampleWorld successReply).rangeOrder)
      = some (str ("<xml><appid><![CDATA[wx1]]></appid><mch_id><![CDATA[m1]]></mch_id>"
          ++ "<nonce_str><![CDATA[n1]]></nonce_str><body><![CDATA[book]]></body>"
          ++ "<out_trade_no><![CDATA[T1]]></out_trade_no><total_fee><![CDATA[100]]></total_fee>"
          ++ "<spbill_create_ip><![CDATA[10.0.0.1]]></spbill_create_ip>"
          ++ "<notify_url><![CDATA[cb]]></notify_url><trade_type><![CDATA[JSAPI]]></trade_type>"
          ++ "<openid><![CDATA[o1]]></openid>"
          ++ "<sign><![CDATA[337D8DDF4D5F101F30D168BDEA581C22]]></sign></xml>")) :=
  ⟨match (request_signed_and_encoded caselessTables (sampleWorld successReply)
      (sampleWorld successReply) sampleClient sampleCharge (str "T1")
      (fun m => List.Perm.refl m) (fun m => List.Perm.refl m)).1 with
    | ⟨req, _, h1, h2, h3, _⟩ => ⟨req, h1, h2, h3⟩,
   by decide⟩

/-! ## What Pay returns -/

/-- C15: after a reply with return code SUCCESS and result code SUCCESS, Pay returns a nil
error and a field set with exactly the keys appId, timeStamp, nonceStr, package, signType and
paySign, where appId is the app id of the client, timeStamp the decimal rendering of the
current Unix time, nonceStr the fresh random string, package the text prepay_id= followed by
the prepay token, and signType the text MD5. -/
theorem Pay_success_fields (uc : CaseTables) (w : World WeChatReResult)
    (wechat : WechatWebClient) (charge : Charge) (re : Str) (xmlRe : WeChatReResult)
    (hpost : payPosted uc w wechat charge = (re, none))
    (hdec : w.Unmarshal re = (xmlRe, none))
    (h1 : xmlRe.ReturnCode = str "SUCCESS") (h2 : xmlRe.ResultCode = str "SUCCESS") :
    (Pay uc w wechat charge).2 = none ∧
    mapKeys (Pay uc w wechat charge).1
      = [str "appId", str "timeStamp", str "nonceStr", str "package", str "signType",
          str "paySign"] ∧
    mapLookup (Pay uc w wechat charge).1 (str "appId") = some wechat.AppID ∧
    mapLookup (Pay uc w wechat charge).1 (str "timeStamp") = some (sprintfInt w.Now) ∧
    mapLookup (Pay uc w wechat charge).1 (str "nonceStr") = some w.RandomStr2 ∧
    mapLookup (Pay uc w wechat charge).1 (str "package")
      = some (str "prepay_id=" ++ xmlRe.PrepayID) ∧
    mapLookup (Pay uc w wechat charge).1 (str "signType") = some (str "MD5") := by
  rw [Pay_of_reply uc w wechat charge re xmlRe hpost hdec]
  rw [if_neg (not_not.mpr h1), if_neg (not_not.mpr h2)]
  unfold paySuccessMap
  rw [payReplyFields_eq]
  exact ⟨rfl, rfl, rfl, rfl, rfl, rfl, rfl⟩

/-- Witness of C15, on a gateway that answers success with the prepay token wx_prepay_xyz. -/
theorem Pay_success_fields_witness :
    (Pay caselessTables (sampleWorld successReply) sampleClient sampleCharge).2 = none ∧
    mapLookup (Pay caselessTables (sampleWorld successReply) sampleClient sampleCharge).1
      (str "package") = some (str "prepay_id=wx_prepay_xyz") ∧
    mapLookup (Pay caselessTables (sampleWorld successReply) sampleClient sampleCharge).1
      (str "timeStamp") = some (str "1700000000") :=
  match Pay_success_fields caselessTables (sampleWorld successReply) sampleClient sampleCharge
      (str "<xml></xml>") successReply rfl rfl rfl rfl with
  | ⟨h0, _, _, h3, _, h5, _⟩ => ⟨h0, h5, h3⟩

/-- C16: on every path where Pay returns an error that is not nil, the field set it returns
is the empty map; GenSign never returns an error that is not nil, so the two returns of Pay
that follow a call of GenSign with its error are never taken. -/
theorem Pay_error_returns_empty (uc : CaseTables) (w : World WeChatReResult)
    (wechat : WechatWebClient) (charge : Charge) (h : (Pay uc w wechat charge).2 ≠ none) :
    (Pay uc w wechat charge).1 = [] ∧ ∀ m : Map, (GenSign uc wechat m).2.2 = none := by
  refine ⟨?_, fun m => by rw [GenSign_eq]⟩
  rcases hpost : payPosted uc w wechat charge with ⟨re, _ | perr⟩
  · rcases hdec : w.Unmarshal re with ⟨xmlRe, _ | derr⟩
    · rw [Pay_of_reply uc w wechat charge re xmlRe hpost hdec] at h ⊢
      by_cases h1 : xmlRe.ReturnCode = str "SUCCESS"
      · by_cases h2 : xmlRe.ResultCode = str "SUCCESS"
        · simp [h1, h2] at h
        · simp [h1, h2]
      · simp [h1]
    · unfold payPosted at hpost
      simp only [GenSign_eq] at hpost
      unfold Pay
      simp only [GenSign_eq, hpost, hdec]
  · unfold payPosted at hpost
    simp only [GenSign_eq] at hpost
    unfold Pay
    simp only [GenSign_eq, hpost]

/-- Witness of C16, on a gateway that answers a communication failure. -/
theorem Pay_error_returns_empty_witness :
    (Pay caselessTables (sampleWorld failReply) sampleClient sampleCharge).2 ≠ none ∧
    (Pay caselessTables (sampleWorld failReply) sampleClient sampleCharge).1 = [] :=
  ⟨by decide,
    (Pay_error_returns_empty caselessTables (sampleWorld failReply) sampleClient sampleCharge
      (by decide)).1⟩

/-! ## The order of the entries in the signing string -/

/-- Between two different keys made of bytes above `=`, the order of the rendered strings is
the order of the keys, whatever the values. -/
theorem key_lt_of_rendered_le : ∀ (k1 k2 v1 v2 : Str), (∀ b ∈ k1, (61 : Byte) < b) →
    (∀ b ∈ k2, (61 : Byte) < b) → k1 ≠ k2 → Str.le (k1 ++ 61 :: v1) (k2 ++ 61 :: v2) →
    Str.lt k1 k2 = true
  | [], [], _, _ => fun _ _ hne _ => absurd rfl hne
  | [], _ :: _, _, _ => fun _ _ _ _ => rfl
  | x :: xs, [], v1, v2 => by
    intro h1 _ _ hle
    have hx : (61 : Byte) < x := h1 x (List.mem_cons_self _ _)
    simp [Str.le, Str.lt, hx] at hle
  | x :: xs, y :: ys, v1, v2 => by
    intro h1 h2 hne hle
    simp only [Str.le, List.cons_append, Str.lt] at hle ⊢
    by_cases hyx : y < x
    · simp [hyx] at hle
    · by_cases hxy : x < y
      · simp [hxy]
      · simp only [hyx, hxy, if_false] at hle ⊢
        have hx : x = y := Fin.le_antisymm (not_lt.mp hyx) (not_lt.mp hxy)
        have hne2 : xs ≠ ys := fun h => hne (by rw [hx, h])
        exact key_lt_of_rendered_le xs ys v1 v2
          (fun b hb => h1 b (List.mem_cons_of_mem _ hb))
          (fun b hb => h2 b (List.mem_cons_of_mem _ hb)) hne2 hle

theorem sprintfKV_eq (k v : Str) : sprintfKV k v = k ++ 61 :: v := by
  unfold sprintfKV
  have h : str "=" = [61] := by decide
  rw [h, List.append_assoc]
  rfl

theorem signable_eq_map (m : Map) :
    signable m = (signableEntries m).map (fun e => sprintfKV e.1 e.2) := by
  rfl

/-- C17: the strings GenSign sorts are the rendered entries; when the keys of the field set are
made of bytes above the equals sign, the entries of the signing string stand in strictly
ascending byte-wise order of their keys, whatever the values are. -/
theorem signStr_ascending_keys (wechat : WechatWebClient) (m : Map) (hwf : Map.WF m)
    (hkeys : ∀ e ∈ m, ∀ b ∈ e.1, (61 : Byte) < b) :
    ∃ E : Map, E.Perm (signableEntries m) ∧ StrictlyAscending (mapKeys E) ∧
      sortStrings (signDataOf (mapDelete (mapDelete m (str "sign")) (str "key")))
        = E.map (fun e => sprintfKV e.1 e.2) ∧
      signStrOf wechat m
        = Join (E.map (fun e => sprintfKV e.1 e.2)) (str "&") ++ str "&key=" ++ wechat.Key := by
  have hperm : (List.insertionSort renderedLe (signableEntries m)).Perm (signableEntries m) :=
    List.perm_insertionSort renderedLe _
  have hsorted : (List.insertionSort renderedLe (signableEntries m)).Sorted renderedLe :=
    @List.sorted_insertionSort _ renderedLe _ ⟨fun a b => strLe_total _ _⟩
      ⟨fun a b c => strLe_trans _ _ _⟩ _
  have hsub : ∀ e ∈ List.insertionSort renderedLe (signableEntries m), e ∈ m := fun e he =>
    List.mem_of_mem_filter (hperm.subset he)
  have hnodup : (List.insertionSort renderedLe (signableEntries m)).Pairwise
      (fun e1 e2 => e1.1 ≠ e2.1) := by
    have h1 : (m.map Prod.fst).Pairwise (fun a b => a ≠ b) := hwf
    have h2 : m.Pairwise (fun e1 e2 => e1.1 ≠ e2.1) := List.pairwise_map.mp h1
    have h3 : (signableEntries m).Pairwise (fun e1 e2 => e1.1 ≠ e2.1) :=
      h2.sublist (List.filter_sublist _)
    exact (hperm.pairwise_iff (fun hab => Ne.symm hab)).mpr h3
  have hmap : (List.insertionSort renderedLe (signableEntries m)).map (fun e => sprintfKV e.1 e.2)
      = sortStrings (signable m) := by
    apply sortStrings_unique
    · rw [signable_eq_map]
      exact hperm.map _
    · exact List.pairwise_map.mpr hsorted
  refine ⟨List.insertionSort renderedLe (signableEntries m), hperm, ?_, ?_, ?_⟩
  · unfold StrictlyAscending mapKeys
    rw [List.pairwise_map]
    have hboth := hsorted.and hnodup
    refine hboth.imp_of_mem ?_
    intro e1 e2 he1 he2 h
    have hle := h.1
    unfold renderedLe at hle
    rw [sprintfKV_eq, sprintfKV_eq] at hle
    exact key_lt_of_rendered_le e1.1 e2.1 e1.2 e2.2 (hkeys e1 (hsub e1 he1))
      (hkeys e2 (hsub e2 he2)) h.2 hle
  · rw [signDataOf_delete, hmap]
  · rw [signStrOf_eq, hmap]

/-- Witness of C17, on the field set b=2, a=1: the entries are signed in the order a, b. -/
theorem signStr_ascending_keys_witness :
    ∃ E : Map, E.Perm (signableEntries [(str "b", str "2"), (str "a", str "1")]) ∧
      StrictlyAscending (mapKeys E) ∧
      signStrOf sampleClient [(str "b", str "2"), (str "a", str "1")]
        = Join (E.map (fun e => sprintfKV e.1 e.2)) (str "&") ++ str "&key=" ++ sampleClient.Key :=
  match signStr_ascending_keys sampleClient [(str "b", str "2"), (str "a", str "1")]
      (by unfold Map.WF; decide)
      (by
        intro e he b hb
        simp only [List.mem_cons, List.mem_singleton, List.not_mem_nil, or_false] at he
        rcases he with rfl | rfl
        · have hk : str "b" = [98] := by decide
          rw [hk] at hb
          simp only [List.mem_singleton] at hb
          rw [hb]; decide
        · have hk : str "a" = [97] := by decide
          rw [hk] at hb
          simp only [List.mem_singleton] at hb
          rw [hb]; decide) with
  | ⟨E, h1, h2, _, h4⟩ => ⟨E, h1, h2, h4⟩

/-- The order is the one of the rendered strings, not of the keys: with the keys a and a-,
where the byte of the dash is below the equals sign, the entry of a- is signed before the
entry of a, although a is the smaller key. -/
theorem signStr_dash_example :
    signStrOf sampleClient dashFields = str "a-=2&a=1&key=SECRET" ∧
    Str.lt (str "a") (str "a-") = true := by
  decide

end Gopay
